import Mathlib

/-!
Verification of `create_static_webpage.py`: a shallow embedding of the
VTT-transcript-to-webpage converter and of the runtime synchronization and
search logic embedded in its generated document, together with theorems
settling the specification claims.

Strings are modelled as `List Char` (`Str`), numeric (Python `float`) values
as exact rationals `ℚ`, and Python exceptions as `Option`/early data results.
Each definition is translated from the corresponding Python/JavaScript code
in `create_static_webpage.py`; line references are given in doc comments.
-/

set_option allowUnsafeReducibility true in
attribute [semireducible] Rat.add Rat.mul Rat.inv Rat.sub

/-- Python strings are modelled as lists of characters. -/
abbrev Str := List Char

/-- Convert a Lean string literal into the `Str` model. -/
def str (s : String) : Str := s.data

/-- Whitespace characters stripped by Python `str.strip()` (ASCII subset:
space, tab, newline, carriage return, vertical tab, form feed). -/
def pyIsSpace (c : Char) : Bool :=
  c = ' ' || c = Char.ofNat 9 || c = Char.ofNat 10 || c = Char.ofNat 13 ||
    c = Char.ofNat 11 || c = Char.ofNat 12

/-- Python `str.strip()`: drop leading and trailing whitespace. -/
def strip (s : Str) : Str :=
  ((s.dropWhile pyIsSpace).reverse.dropWhile pyIsSpace).reverse

/-- Python `re.match(r'^\d+$', line)` (restricted to ASCII digits): the whole
line is one or more digits.  Used to skip cue-identifier lines. -/
def isDigits (s : Str) : Bool :=
  !s.isEmpty && s.all Char.isDigit

/-- Python `sub in s` for strings: `sub` occurs as a contiguous substring. -/
def containsSub (sub : Str) : Str → Bool
  | [] => sub.isEmpty
  | c :: rest => sub.isPrefixOf (c :: rest) || containsSub sub rest

/-- Worker for `splitOnSub`; `acc` holds the current (reversed) piece.  The
`fuel` argument makes the recursion structural (every step consumes at least
one character, so `fuel = s.length` never runs out). -/
def splitOnSubAux (sep : Str) (acc : Str) : Nat → Str → List Str
  | _, [] => [acc.reverse]
  | 0, s => [acc.reverse ++ s]
  | fuel + 1, c :: rest =>
    if sep.isPrefixOf (c :: rest) then
      acc.reverse :: splitOnSubAux sep [] fuel (rest.drop (sep.length - 1))
    else
      splitOnSubAux sep (c :: acc) fuel rest

/-- Python `s.split(sep)` for a non-empty separator: split `s` at every
occurrence of `sep`.  Always returns at least one piece. -/
def splitOnSub (sep s : Str) : List Str := splitOnSubAux sep [] s.length s

/-- Python `s.split(":", 1)`: `none` when `s` has no colon (Python returns the
one-element list `[s]`), otherwise the pieces before and after the first
colon. -/
def splitOnceColon : Str → Option (Str × Str)
  | [] => none
  | c :: rest =>
    if c = ':' then some ([], rest)
    else
      match splitOnceColon rest with
      | none => none
      | some (a, b) => some (c :: a, b)

/-- Worker for `pyReplace`; the pattern searched for is `o :: os`.  The `fuel`
argument makes the recursion structural (every step consumes at least one
character, so `fuel = s.length` never runs out). -/
def pyReplaceAux (o : Char) (os new : Str) : Nat → Str → Str
  | _, [] => []
  | 0, s => s
  | fuel + 1, c :: rest =>
    if (o :: os).isPrefixOf (c :: rest) then
      new ++ pyReplaceAux o os new fuel (rest.drop os.length)
    else
      c :: pyReplaceAux o os new fuel rest

/-- Python `s.replace(old, new)` for non-empty `old`: replace all
non-overlapping occurrences, scanning left to right.  (Python's behaviour for
an empty `old` is never exercised: all correction patterns are non-empty.) -/
def pyReplace (old new s : Str) : Str :=
  match old with
  | [] => s
  | o :: os => pyReplaceAux o os new s.length s

/-- Numeric value of a digit string (most significant first). -/
def digitsVal (ds : Str) : Nat :=
  ds.foldl (fun n c => 10 * n + (c.toNat - 48)) 0

/-- Split an optional leading sign off a numeral body, as Python `int`/`float`
accept.  Returns the sign as a rational `1` or `-1`. -/
def splitSign : Str → ℚ × Str
  | '-' :: r => (-1, r)
  | '+' :: r => (1, r)
  | r => (1, r)

/-- Python `int(s)`: strip whitespace, optional sign, then one or more digits
(the rarely used underscore-grouping form is not modelled). `none` models the
`ValueError` raised on any other input. -/
def pyInt (s : Str) : Option ℤ :=
  let (sign, body) := splitSign (strip s)
  if body ≠ [] ∧ body.all Char.isDigit then
    some (if sign = 1 then (digitsVal body : ℤ) else -(digitsVal body : ℤ))
  else none

/-- Python `float(s)` restricted to plain decimal numerals
(`[sign] digits [ . digits ]`, `[sign] . digits`, `[sign] digits .`), the only
forms a VTT timestamp can take; exponent/`inf`/`nan` forms are not modelled.
The value is exact (`ℚ`), abstracting IEEE rounding. `none` models the
`ValueError` raised on any other input. -/
def pyFloat (s : Str) : Option ℚ :=
  let (sign, body) := splitSign (strip s)
  let ip := body.takeWhile Char.isDigit
  let rest := body.dropWhile Char.isDigit
  match rest with
  | [] => if ip ≠ [] then some (sign * (digitsVal ip : ℚ)) else none
  | '.' :: frac =>
    if frac.all Char.isDigit ∧ (ip ≠ [] ∨ frac ≠ []) then
      some (sign * ((digitsVal ip : ℚ) + (digitsVal frac : ℚ) / 10 ^ frac.length))
    else none
  | _ => none

/-- Lines 22-40 of `create_static_webpage.py` (`parse_timestamp`): convert a
VTT timestamp into seconds.  Splitting on `:` must give exactly 1 token (bare
seconds, parsed as a float) or exactly 3 tokens (hours and minutes as ints,
seconds as a float, combined as `h*3600 + m*60 + s`); any other token count —
and any failing int/float conversion — raises `ValueError`, modelled as
`none`. -/
def parse_timestamp (timestamp : Str) : Option ℚ :=
  match splitOnSub (str ":") timestamp with
  | [p] => pyFloat p
  | [h, m, sec] =>
    match pyInt h, pyInt m, pyFloat sec with
    | some hh, some mm, some ss => some ((hh : ℚ) * 3600 + (mm : ℚ) * 60 + ss)
    | _, _, _ => none
  | _ => none

/-- Lines 44-49: the fixed, ordered correction rule list of `fix_spelling`. -/
def corrections : List (Str × Str) :=
  [(str "McCauley", str "McCallie"),
   (str "Catherine", str "Katharine"),
   (str "Chicago coal", str "Chicago cold"),
   (str "HIROX", str "High Rocks")]

/-- Lines 42-53 (`fix_spelling`): apply each literal replacement in order. -/
def fix_spelling (text : Str) : Str :=
  corrections.foldl (fun t p => pyReplace p.1 p.2 t) text

/-- One cue, as extracted by `parse_vtt_file` (line 107: the tuple
`(speaker, start_time, cue_text)`). -/
structure Cue where
  speaker : Str
  start_time : ℚ
  text : Str
deriving DecidableEq, Repr

/-- Python `" ".join(text_lines)` (line 106). -/
def joinSpace : List Str → Str
  | [] => []
  | [x] => x
  | x :: y :: rest => x ++ ' ' :: joinSpace (y :: rest)

/-- The VTT time-range separator token `-->` (lines 79-81). -/
def arrow : Str := str "-->"

/-- Lines 81-82: `parts = line.split('-->'); start_timestamp =
parts[0].strip()` — the left-hand timestamp of an (already stripped) timing
line. -/
def startTimestamp (line : Str) : Str :=
  strip ((splitOnSub arrow line).headD [])

/-- Parser state for the line scan of `parse_vtt_file` (lines 65-109).
`seeking` is the outer-loop state looking for a timing line; `reading sp t
acc` is the inner loop of lines 95-105 collecting the text lines of the cue
that started at time `t`, with current speaker `sp` and the text lines read
so far in `acc` (most recent first). -/
inductive ParseMode where
  | seeking : ParseMode
  | reading : Str → ℚ → List Str → ParseMode

/-- Lines 65-109 of `parse_vtt_file`, as a state machine over the remaining
lines.  Returns the cue list together with the list of timestamps warned
about (each `print("Warning: ...")` of line 86 is modelled by recording the
offending start timestamp).  In `seeking` mode: blank lines, `WEBVTT` header
lines and pure-numeric cue-identifier lines are skipped; a line containing
`-->` has its left part parsed as the start time — on failure a warning is
recorded and the scan moves to the next line (line 87: `i += 1; continue`),
on success the scan switches to `reading`.  In `reading` mode a non-blank
line is split on its first `:` (speaker update if the colon is present), and
a blank line or end of input emits the cue.  (In Python the terminating
blank line is left for the outer loop, which then skips it; here it is
consumed directly when the cue is emitted, which is equivalent.) -/
def parseLoop : ParseMode → List Str → List Cue × List Str
  | .seeking, [] => ([], [])
  | .reading sp t acc, [] => ([⟨sp, t, joinSpace acc.reverse⟩], [])
  | .seeking, l :: rest =>
    if strip l = [] ∨ (str "WEBVTT").isPrefixOf (strip l) then parseLoop .seeking rest
    else if isDigits (strip l) then parseLoop .seeking rest
    else if containsSub arrow (strip l) then
      match parse_timestamp (startTimestamp (strip l)) with
      | some t => parseLoop (.reading [] t []) rest
      | none =>
        ((parseLoop .seeking rest).1,
          startTimestamp (strip l) :: (parseLoop .seeking rest).2)
    else parseLoop .seeking rest
  | .reading sp t acc, l :: rest =>
    if strip l = [] then
      (⟨sp, t, joinSpace acc.reverse⟩ :: (parseLoop .seeking rest).1,
        (parseLoop .seeking rest).2)
    else
      match splitOnceColon (strip l) with
      | some (a, b) =>
        parseLoop (.reading (strip a) t (fix_spelling (strip b) :: acc)) rest
      | none =>
        parseLoop (.reading sp t (fix_spelling (strip l) :: acc)) rest

/-- Lines 55-111 (`parse_vtt_file`): parse the (already split) lines of a VTT
file into the extracted cue list, plus the recorded warnings. -/
def parse_vtt_file (lines : List Str) : List Cue × List Str :=
  parseLoop .seeking lines

/-- A speaker run, the implicit grouping structure of the `generate_html`
transcript loop (lines 137-157): a `speaker-section` opened with the
speaker's name and the anchor (first cue) start time, holding the member
cues. -/
structure Run where
  speaker : Str
  anchor : ℚ
  cues : List Cue
deriving DecidableEq, Repr

/-- Worker for `speakerRuns`: the current open run has speaker `sp` (the
loop's `last_speaker`), anchor time `a`, and members `acc` (reversed).  A cue
whose speaker equals `last_speaker` joins the run; otherwise the run is
closed and a new section is started (lines 142-149). -/
def speakerRunsAux (sp : Str) (a : ℚ) (acc : List Cue) : List Cue → List Run
  | [] => [⟨sp, a, acc.reverse⟩]
  | d :: ds =>
    if d.speaker = sp then speakerRunsAux sp a (d :: acc) ds
    else ⟨sp, a, acc.reverse⟩ :: speakerRunsAux d.speaker d.start_time [d] ds

/-- Lines 137-157 of `generate_html`: group the cue list into speaker runs.
`last_speaker` starts as Python `None`, which differs from every speaker
string, so the first cue always opens a run — modelled by the `[]`/cons
split. -/
def speakerRuns : List Cue → List Run
  | [] => []
  | c :: cs => speakerRunsAux c.speaker c.start_time [c] cs

/-- State of the Synchronization Engine: the `currentActiveElement` variable
(line 565) of the generated page's script, modelled as the index of the
active cue in the rendered timeline (`none` = JavaScript `null`). -/
structure SyncState where
  currentActive : Option Nat
deriving DecidableEq, Repr

/-- Lines 605-611 of the `timeupdate` handler: scan the rendered cue elements
in reverse order (`for i = length-1 downto 0`) and return the index of the
first one (latest in document order) whose `data-time` is `≤ t`; `none` when
no element satisfies the condition.  The recursion inspects the tail (the
later elements) before the head, which is exactly the reverse scan. -/
def revFindActive (t : ℚ) : List ℚ → Option Nat
  | [] => none
  | x :: xs =>
    match revFindActive t xs with
    | some j => some (j + 1)
    | none => if x ≤ t then some 0 else none

/-- Lines 597-627: the `timeupdate` event handler.  `times` is the rendered
timeline (each cue's `data-time`, in document order).  If auto-scroll is off
or the user is scrolling, nothing happens; otherwise the active element is
recomputed and, only if one was found and it differs from the current one,
the pointer is updated (when no element qualifies the pointer is left
untouched). -/
def timeupdateHandler (times : List ℚ) (autoScrollEnabled userIsScrolling : Bool)
    (t : ℚ) (s : SyncState) : SyncState :=
  if !autoScrollEnabled || userIsScrolling then s
  else
    match revFindActive t times with
    | none => s
    | some i => if s.currentActive = some i then s else ⟨some i⟩

/-- State of the Search Engine after a query: the `searchMatches` list (as
cue-index/character-position pairs standing for the highlight `<span>`s),
`currentMatchIndex`, the `searchInfo` status text, and the two navigation
buttons' disabled flags (lines 444-449). -/
structure SearchState where
  searchMatches : List (Nat × Nat)
  currentMatchIndex : ℤ
  searchInfo : Str
  prevDisabled : Bool
  nextDisabled : Bool
deriving DecidableEq, Repr

/-- JavaScript case-insensitive comparison (the regex `i` flag), modelled by
lower-casing both sides. -/
def lowerStr (s : Str) : Str := s.map Char.toLower

/-- Positions of all non-overlapping matches of the (non-empty, already
lower-cased) pattern `q0 :: qs` in an (already lower-cased) text, scanning
left to right, as `String.matchAll` with a global escaped-literal regex
produces them (lines 474-478). -/
def findMatchesAux (q0 : Char) (qs : Str) (pos : Nat) : Nat → Str → List Nat
  | _, [] => []
  | 0, _ => []
  | fuel + 1, c :: rest =>
    if (q0 :: qs).isPrefixOf (c :: rest) then
      pos :: findMatchesAux q0 qs (pos + qs.length + 1) fuel (rest.drop qs.length)
    else findMatchesAux q0 qs (pos + 1) fuel rest

/-- All case-insensitive literal matches of `q` in `text` (lines 474-478). -/
def findMatches (q text : Str) : List Nat :=
  match lowerStr q with
  | [] => []
  | q0 :: qs => findMatchesAux q0 qs 0 text.length (lowerStr text)

/-- Lines 476-506: collect every match over all `.speakertext` elements (the
cue texts, in document order) into the ordered match list. -/
def collectMatches (texts : List Str) (q : Str) : List (Nat × Nat) :=
  (texts.enum).flatMap fun p => (findMatches q p.2).map fun pos => (p.1, pos)

/-- The decimal digits of `n`, modelling JavaScript number-to-string
interpolation. -/
def natStr (n : Nat) : Str := Nat.toDigits 10 n

/-- Lines 463-518 (`highlightMatches`) together with `clearHighlights`
(lines 452-461) and the `updateCurrentMatch` status update (line 529): the
search state produced by issuing query `q` over the rendered cue texts.  A
query of length < 2 (which includes the falsy empty string) clears
everything: no matches, index −1, empty status, both buttons disabled. -/
def highlightMatches (texts : List Str) (q : Str) : SearchState :=
  if q.length < 2 then ⟨[], -1, [], true, true⟩
  else
    let ms := collectMatches texts q
    if ms = [] then ⟨[], -1, str "No matches", true, true⟩
    else ⟨ms, 0, natStr 1 ++ str " of " ++ natStr ms.length, false, false⟩

/-- Line 774: the diagnostic printed when no cues are extracted. -/
def noCuesMessage : Str := str "No cues found in the VTT file. Exiting."

/-- Line 781: the success message. -/
def successMessage (output_file : Str) : Str :=
  str "HTML file generated: " ++ output_file

/-- Lines 763-781 (`main`): parse the input, abort with a diagnostic and
produce no output when no cues were extracted, otherwise produce the
document and print the success message.  The written document is abstracted
to its transcript content — the speaker-run structure `generate_html` walks
while emitting `transcript_lines` — since the rest of the HTML is a fixed
template; `none` means no output file is written. -/
def mainRun (vttLines : List Str) (output_file : Str) : Option (List Run) × Str :=
  let cues := (parse_vtt_file vttLines).1
  if cues = [] then (none, noCuesMessage)
  else (some (speakerRuns cues), successMessage output_file)

/-! ## Helper lemmas -/

/-- The reverse scan finds nothing exactly when every rendered time lies
strictly beyond `t`. -/
theorem revFindActive_none_iff (t : ℚ) (l : List ℚ) :
    revFindActive t l = none ↔ ∀ x ∈ l, t < x := by
  induction l with
  | nil => simp [revFindActive]
  | cons x xs ih =>
    rw [revFindActive]
    cases hrec : revFindActive t xs with
    | some j =>
      simp only [List.mem_cons]
      constructor
      · intro h; cases h
      · intro h
        have hnone : revFindActive t xs = none :=
          ih.mpr fun y hy => h y (Or.inr hy)
        rw [hnone] at hrec
        cases hrec
    | none =>
      have hall : ∀ y ∈ xs, t < y := ih.mp hrec
      by_cases hx : x ≤ t
      · simp only [if_pos hx, List.mem_cons]
        constructor
        · intro h; cases h
        · intro h
          exact absurd hx (not_le.mpr (h x (Or.inl rfl)))
      · simp only [if_neg hx, List.mem_cons]
        constructor
        · rintro - y (rfl | hy)
          · exact lt_of_not_le hx
          · exact hall y hy
        · intro h; trivial

/-- Characterization of the reverse scan of the `timeupdate` handler: it
returns index `i` exactly when cue `i` has started by time `t` and every
later cue starts strictly after `t` — i.e. it is the first cue, in reverse
document order, whose `start_time ≤ t`. -/
theorem revFindActive_some_iff (t : ℚ) (l : List ℚ) (i : Nat) :
    revFindActive t l = some i ↔
      i < l.length ∧ l.getD i 0 ≤ t ∧
        ∀ j, j < l.length → i < j → t < l.getD j 0 := by
  induction l generalizing i with
  | nil => simp [revFindActive]
  | cons x xs ih =>
    rw [revFindActive]
    cases hrec : revFindActive t xs with
    | some j =>
      obtain ⟨hj, hjle, hjaft⟩ := (ih j).mp hrec
      simp only [Option.some.injEq]
      constructor
      · rintro rfl
        refine ⟨by simpa using Nat.succ_lt_succ hj, by simpa using hjle, ?_⟩
        intro k hk hgt
        cases k with
        | zero => omega
        | succ k =>
          rw [List.getD_cons_succ]
          exact hjaft k (by simpa using hk) (by omega)
      · rintro ⟨hi, hle, haft⟩
        cases i with
        | zero =>
          exfalso
          have ht := haft (j + 1) (by simpa using Nat.succ_lt_succ hj) (Nat.succ_pos j)
          rw [List.getD_cons_succ] at ht
          exact absurd hjle (not_le.mpr ht)
        | succ i =>
          have hx : revFindActive t xs = some i := by
            refine (ih i).mpr ⟨by simpa using hi, by simpa using hle, ?_⟩
            intro k hk hik
            have := haft (k + 1) (by simpa using Nat.succ_lt_succ hk) (by omega)
            rwa [List.getD_cons_succ] at this
          rw [hrec] at hx
          injection hx with hx
          rw [hx]
    | none =>
      have hall : ∀ y ∈ xs, t < y := (revFindActive_none_iff t xs).mp hrec
      have hmem : ∀ k, k < xs.length → t < xs.getD k 0 := by
        intro k hk
        rw [List.getD_eq_getElem xs 0 hk]
        exact hall _ (xs.getElem_mem hk)
      by_cases hx : x ≤ t
      · simp only [if_pos hx, Option.some.injEq]
        constructor
        · rintro rfl
          refine ⟨Nat.succ_pos _, by simpa using hx, ?_⟩
          intro j hj hgt
          cases j with
          | zero => omega
          | succ j =>
            rw [List.getD_cons_succ]
            exact hmem j (by simpa using hj)
        · rintro ⟨hi, hle, haft⟩
          cases i with
          | zero => rfl
          | succ i =>
            exfalso
            rw [List.getD_cons_succ] at hle
            exact absurd hle (not_le.mpr (hmem i (by simpa using hi)))
      · simp only [if_neg hx]
        constructor
        · intro h; cases h
        · rintro ⟨hi, hle, haft⟩
          exfalso
          cases i with
          | zero => exact hx (by simpa using hle)
          | succ i =>
            rw [List.getD_cons_succ] at hle
            exact absurd hle (not_le.mpr (hmem i (by simpa using hi)))

/-! ## Claim theorems -/

/-- C1: with `autoScrollEnabled` true and `userIsScrolling` false, the
`timeupdate` handler selects the active cue by scanning the timeline in
reverse order and taking the first cue whose `start_time ≤ t` (equivalently,
cue `i` is selected iff it has started by `t` and all later cues start after
`t`, and a found cue becomes the pointer); for cues at `[0, 10, 20]` and
`t = 15` the active cue is index 1, the cue at time 10; and for any `t`
before the first cue's start time, no cue is selected and the Active-Cue
Pointer is left unset (starting unset it stays unset, so no cue is active at
`t = -1` or any `t < 0`). -/
theorem c1_active_cue_selection :
    (∀ (times : List ℚ) (t : ℚ) (i : Nat),
        revFindActive t times = some i ↔
          i < times.length ∧ times.getD i 0 ≤ t ∧
            ∀ j, j < times.length → i < j → t < times.getD j 0) ∧
    (∀ (times : List ℚ) (t : ℚ) (i : Nat) (s : SyncState),
        revFindActive t times = some i →
          timeupdateHandler times true false t s = ⟨some i⟩) ∧
    (∀ s : SyncState, timeupdateHandler [0, 10, 20] true false 15 s = ⟨some 1⟩) ∧
    (([0, 10, 20] : List ℚ).getD 1 0 = 10) ∧
    (∀ t : ℚ, t < 0 →
        revFindActive t [0, 10, 20] = none ∧
          timeupdateHandler [0, 10, 20] true false t ⟨none⟩ = ⟨none⟩) := by
  have hstep : ∀ (times : List ℚ) (t : ℚ) (i : Nat) (s : SyncState),
      revFindActive t times = some i →
        timeupdateHandler times true false t s = ⟨some i⟩ := by
    intro times t i s hfind
    rcases s with ⟨a⟩
    by_cases h : a = some i
    · simp [timeupdateHandler, hfind, h]
    · simp [timeupdateHandler, hfind, h]
  refine ⟨fun times t i => revFindActive_some_iff t times i, hstep, ?_, by decide, ?_⟩
  · intro s
    exact hstep [0, 10, 20] 15 1 s (by decide)
  · intro t ht
    have h0 : ¬((0 : ℚ) ≤ t) := not_le.mpr ht
    have h10 : ¬((10 : ℚ) ≤ t) := not_le.mpr (ht.trans_le (by norm_num))
    have h20 : ¬((20 : ℚ) ≤ t) := not_le.mpr (ht.trans_le (by norm_num))
    have hnone : revFindActive t [0, 10, 20] = none := by
      simp [revFindActive, h0, h10, h20]
    exact ⟨hnone, by simp [timeupdateHandler, hnone]⟩

/-- Witness for C1, instantiated at the concrete time `t = -1`. -/
theorem c1_active_cue_selection_witness :
    revFindActive (-1) [0, 10, 20] = none ∧
      timeupdateHandler [0, 10, 20] true false (-1) ⟨none⟩ = ⟨none⟩ :=
  c1_active_cue_selection.2.2.2.2 (-1) (by norm_num)

/-- C4: `parse_timestamp` splits on `:`; exactly 1 token is parsed as a
floating-point number of seconds, exactly 3 tokens are combined as
`hours*3600 + minutes*60 + seconds` (hours and minutes as integers, seconds
as floating point), and any other token count raises the malformed-timestamp
error (modelled by `none`).  Concretely `"00:22:10.660"` yields `1330.66`,
`"5"` yields `5.0`, and the two-token `"10:20"` errors. -/
theorem c4_timestamp_converter :
    parse_timestamp (str "00:22:10.660") = some (133066 / 100 : ℚ) ∧
    parse_timestamp (str "5") = some 5 ∧
    parse_timestamp (str "10:20") = none ∧
    (∀ s p, splitOnSub (str ":") s = [p] → parse_timestamp s = pyFloat p) ∧
    (∀ s h m sec, splitOnSub (str ":") s = [h, m, sec] →
        ∀ hh mm ss, pyInt h = some hh → pyInt m = some mm → pyFloat sec = some ss →
          parse_timestamp s = some ((hh : ℚ) * 3600 + (mm : ℚ) * 60 + ss)) ∧
    (∀ s, (splitOnSub (str ":") s).length ≠ 1 →
        (splitOnSub (str ":") s).length ≠ 3 → parse_timestamp s = none) := by
  refine ⟨by decide, by decide, by decide, ?_, ?_, ?_⟩
  · intro s p hsp
    unfold parse_timestamp
    rw [hsp]
  · intro s h m sec hsp hh mm ss h1 h2 h3
    unfold parse_timestamp
    rw [hsp]
    simp [h1, h2, h3]
  · intro s hn1 hn3
    unfold parse_timestamp
    generalize hsp : splitOnSub (str ":") s = parts at hn1 hn3 ⊢
    match parts, hn1, hn3 with
    | [], _, _ => rfl
    | [a], hn1, _ => exact absurd rfl hn1
    | [a, b], _, _ => rfl
    | [a, b, c], _, hn3 => exact absurd rfl hn3
    | a :: b :: c :: d :: tl, _, _ => rfl

/-- Witness for C4, instantiated at the one-token input `"7"`. -/
theorem c4_timestamp_converter_witness :
    parse_timestamp (str "7") = pyFloat (str "7") :=
  c4_timestamp_converter.2.2.2.1 (str "7") (str "7") (by decide)

/-- C7: a query of length < 2 clears all search state — empty Match Set,
index −1, navigation disabled — and the status readout is cleared to the
empty string, not set to `"No matches"`. -/
theorem c7_short_query_clears :
    ∀ (texts : List Str) (q : Str), q.length < 2 →
      highlightMatches texts q = ⟨[], -1, [], true, true⟩ ∧
        (highlightMatches texts q).searchInfo ≠ str "No matches" := by
  intro texts q hq
  have h : highlightMatches texts q = ⟨[], -1, [], true, true⟩ := by
    unfold highlightMatches
    rw [if_pos hq]
  refine ⟨h, ?_⟩
  rw [h]
  decide

/-- Witness for C7, instantiated at the length-1 query `"a"`. -/
theorem c7_short_query_clears_witness :
    highlightMatches [str "No matches in here"] (str "a") = ⟨[], -1, [], true, true⟩ ∧
      (highlightMatches [str "No matches in here"] (str "a")).searchInfo
        ≠ str "No matches" :=
  c7_short_query_clears [str "No matches in here"] (str "a") (by decide)

/-- C8: when extraction yields zero cues, `main` prints the "no cues found"
diagnostic and writes no output file; when it yields at least one cue, the
document is produced and the success message printed.  Concretely, a
header-only file aborts and a one-cue file produces output. -/
theorem c8_zero_cue_abort :
    (∀ ls out, (parse_vtt_file ls).1 = [] → mainRun ls out = (none, noCuesMessage)) ∧
    (∀ ls out c cs, (parse_vtt_file ls).1 = c :: cs →
        mainRun ls out = (some (speakerRuns (c :: cs)), successMessage out)) ∧
    mainRun [str "WEBVTT"] (str "out.html") = (none, noCuesMessage) ∧
    mainRun [str "0 --> 1", str "Alice: hi"] (str "out.html")
      = (some [⟨str "Alice", 0, [⟨str "Alice", 0, str "hi"⟩]⟩],
          successMessage (str "out.html")) := by
  refine ⟨?_, ?_, by decide, by decide⟩
  · intro ls out h
    simp [mainRun, h]
  · intro ls out c cs h
    simp [mainRun, h]

/-- Witness for C8, instantiated at a header-only file. -/
theorem c8_zero_cue_abort_witness :
    mainRun [str "WEBVTT"] (str "page.html") = (none, noCuesMessage) :=
  c8_zero_cue_abort.1 [str "WEBVTT"] (str "page.html") (by decide)

/-- Concatenating the member lists of the runs built by `speakerRunsAux`
recovers the open run's members followed by the remaining cues. -/
theorem speakerRunsAux_flatten (ds : List Cue) :
    ∀ sp a acc,
      (speakerRunsAux sp a acc ds).foldr (fun r l => r.cues ++ l) []
        = acc.reverse ++ ds := by
  induction ds with
  | nil => intro sp a acc; simp [speakerRunsAux]
  | cons d ds ih =>
    intro sp a acc
    rw [speakerRunsAux]
    by_cases h : d.speaker = sp
    · rw [if_pos h, ih]
      simp
    · rw [if_neg h]
      simp [ih]

/-- The first run emitted by `speakerRunsAux` carries the open run's speaker
and anchor. -/
theorem speakerRunsAux_head_speaker (ds : List Cue) :
    ∀ sp a acc, ∃ ms rest, speakerRunsAux sp a acc ds = ⟨sp, a, ms⟩ :: rest := by
  induction ds with
  | nil => intro sp a acc; exact ⟨acc.reverse, [], rfl⟩
  | cons d ds ih =>
    intro sp a acc
    rw [speakerRunsAux]
    by_cases h : d.speaker = sp
    · rw [if_pos h]; exact ih sp a (d :: acc)
    · rw [if_neg h]
      exact ⟨acc.reverse, speakerRunsAux d.speaker d.start_time [d] ds, rfl⟩

/-- Every run emitted by `speakerRunsAux` is non-empty, carries its first
member's speaker and start time, and all its members share that speaker —
provided the open run satisfies the same invariant. -/
theorem speakerRunsAux_runs (ds : List Cue) :
    ∀ sp a acc h tl, acc.reverse = h :: tl → h.start_time = a →
      (∀ x ∈ acc, x.speaker = sp) →
      ∀ r ∈ speakerRunsAux sp a acc ds,
        ∃ c cs, r.cues = c :: cs ∧ r.speaker = c.speaker ∧
          r.anchor = c.start_time ∧ ∀ d ∈ r.cues, d.speaker = r.speaker := by
  induction ds with
  | nil =>
    intro sp a acc h tl hrev ha hsp r hr
    simp only [speakerRunsAux, List.mem_singleton] at hr
    subst hr
    have hmem : h ∈ acc := by
      have : h ∈ acc.reverse := by rw [hrev]; exact List.mem_cons_self _ _
      simpa using this
    refine ⟨h, tl, by simp [hrev], (hsp h hmem).symm, ha.symm, ?_⟩
    intro d hd
    simp only at hd
    exact hsp d (by simpa using hd)
  | cons d ds ih =>
    intro sp a acc h tl hrev ha hsp r hr
    rw [speakerRunsAux] at hr
    by_cases hd : d.speaker = sp
    · rw [if_pos hd] at hr
      refine ih sp a (d :: acc) h (tl ++ [d]) ?_ ha ?_ r hr
      · rw [List.reverse_cons, hrev, List.cons_append]
      · intro x hx
        rcases List.mem_cons.mp hx with rfl | hx
        · exact hd
        · exact hsp x hx
    · rw [if_neg hd] at hr
      rcases List.mem_cons.mp hr with rfl | hr
      · have hmem : h ∈ acc := by
          have : h ∈ acc.reverse := by rw [hrev]; exact List.mem_cons_self _ _
          simpa using this
        refine ⟨h, tl, by simp [hrev], (hsp h hmem).symm, ha.symm, ?_⟩
        intro x hx
        simp only at hx
        exact hsp x (by simpa using hx)
      · exact ih d.speaker d.start_time [d] d [] rfl rfl
          (by intro x hx; simpa using List.mem_singleton.mp hx ▸ rfl) r hr

/-- Adjacent runs emitted by `speakerRunsAux` always have different
speakers, provided the open run's speaker equals `sp`. -/
theorem speakerRunsAux_chain (ds : List Cue) :
    ∀ sp a acc,
      List.Chain' (fun r1 r2 => r1.speaker ≠ r2.speaker)
        (speakerRunsAux sp a acc ds) := by
  induction ds with
  | nil => intro sp a acc; simp [speakerRunsAux]
  | cons d ds ih =>
    intro sp a acc
    rw [speakerRunsAux]
    by_cases h : d.speaker = sp
    · rw [if_pos h]; exact ih sp a (d :: acc)
    · rw [if_neg h]
      obtain ⟨ms, rest, heq⟩ := speakerRunsAux_head_speaker ds d.speaker d.start_time [d]
      rw [heq]
      refine List.chain'_cons.mpr ⟨?_, ?_⟩
      · exact fun hcontra => h hcontra.symm
      · rw [← heq]; exact ih d.speaker d.start_time [d]

/-- C5: the Speaker-Run Assembler starts a new run exactly when the current
cue's speaker differs from the immediately preceding cue's speaker: the runs
flatten back to the original cue list, every run is non-empty, anchored at
its first cue's start time and constant in speaker, and adjacent runs always
carry different speakers (so two runs with the same speaker separated by a
different speaker are never merged).  The very first cue always starts a run
and the empty string is a valid comparable speaker value (two empty-speaker
cues form one run).  Concretely, a file with an Alice block, a malformed
block, a Bob block and a trailing Alice block produces three runs
Alice/Bob/Alice, not two. -/
theorem c5_speaker_run_grouping :
    (∀ cues : List Cue, (speakerRuns cues).foldr (fun r l => r.cues ++ l) [] = cues) ∧
    (∀ cues : List Cue, ∀ r ∈ speakerRuns cues,
        ∃ c cs, r.cues = c :: cs ∧ r.speaker = c.speaker ∧
          r.anchor = c.start_time ∧ ∀ d ∈ r.cues, d.speaker = r.speaker) ∧
    (∀ cues : List Cue,
        List.Chain' (fun r1 r2 => r1.speaker ≠ r2.speaker) (speakerRuns cues)) ∧
    ((speakerRuns [⟨[], 0, str "x"⟩, ⟨[], 1, str "y"⟩]).length = 1) ∧
    ((speakerRuns (parse_vtt_file [str "WEBVTT", str "", str "0 --> 1",
        str "Alice: one", str "", str "bad --> 2", str "oops", str "",
        str "5 --> 6", str "Bob: two", str "", str "9 --> 10",
        str "Alice: three"]).1).map Run.speaker
      = [str "Alice", str "Bob", str "Alice"]) := by
  refine ⟨?_, ?_, ?_, by decide, by decide⟩
  · intro cues
    cases cues with
    | nil => simp [speakerRuns]
    | cons c cs =>
      rw [speakerRuns, speakerRunsAux_flatten]
      simp
  · intro cues r hr
    cases cues with
    | nil => simp [speakerRuns] at hr
    | cons c cs =>
      rw [speakerRuns] at hr
      exact speakerRunsAux_runs cs c.speaker c.start_time [c] c [] rfl rfl
        (by intro x hx; simpa using List.mem_singleton.mp hx ▸ rfl) r hr
  · intro cues
    cases cues with
    | nil => simp [speakerRuns]
    | cons c cs => exact speakerRunsAux_chain cs c.speaker c.start_time [c]

/-- `splitOnceColon` succeeds exactly on the decomposition at the first
colon: `some (a, b)` iff the string is `a ++ ':' :: b` with no colon in
`a`. -/
theorem splitOnceColon_some (s : Str) :
    ∀ a b : Str, splitOnceColon s = some (a, b) ↔ s = a ++ ':' :: b ∧ ':' ∉ a := by
  induction s with
  | nil =>
    intro a b
    constructor
    · intro h; cases h
    · rintro ⟨h, -⟩
      cases a <;> cases h
  | cons c rest ih =>
    intro a b
    rw [splitOnceColon]
    by_cases hc : c = ':'
    · subst hc
      rw [if_pos rfl]
      constructor
      · intro h
        injection h with h
        injection h with h1 h2
        subst h1; subst h2
        exact ⟨rfl, by simp⟩
      · rintro ⟨heq, hnotin⟩
        cases a with
        | nil =>
          injection heq with h1 h2
          rw [h2]
        | cons a0 tl =>
          injection heq with h1 h2
          exact absurd (h1 ▸ List.mem_cons_self a0 tl) hnotin
    · rw [if_neg hc]
      cases hrec : splitOnceColon rest with
      | none =>
        constructor
        · intro h; cases h
        · rintro ⟨heq, hnotin⟩
          cases a with
          | nil =>
            injection heq with h1 h2
            exact absurd h1 hc
          | cons a0 tl =>
            injection heq with h1 h2
            have hs : splitOnceColon rest = some (tl, b) :=
              (ih tl b).mpr ⟨h2, fun hm => hnotin (List.mem_cons_of_mem _ hm)⟩
            rw [hrec] at hs
            cases hs
      | some ab =>
        obtain ⟨a0', b0'⟩ := ab
        obtain ⟨hres, hnot⟩ := (ih a0' b0').mp hrec
        constructor
        · intro h
          injection h with h
          injection h with h1 h2
          subst h1; subst h2
          refine ⟨by rw [hres, List.cons_append], ?_⟩
          intro hm
          rcases List.mem_cons.mp hm with h | h
          · exact hc h.symm
          · exact hnot h
        · rintro ⟨heq, hnotin⟩
          cases a with
          | nil =>
            injection heq with h1 h2
            exact absurd h1 hc
          | cons a0 tl =>
            injection heq with h1 h2
            have hs : splitOnceColon rest = some (tl, b) :=
              (ih tl b).mpr ⟨h2, fun hm => hnotin (List.mem_cons_of_mem _ hm)⟩
            rw [hrec] at hs
            injection hs with hs
            injection hs with h3 h4
            rw [h1, h3, h4]

/-- `splitOnceColon` fails exactly when the string has no colon, which is
when Python `split(":", 1)` returns a one-element list. -/
theorem splitOnceColon_none (s : Str) : splitOnceColon s = none ↔ ':' ∉ s := by
  induction s with
  | nil => simp [splitOnceColon]
  | cons c rest ih =>
    rw [splitOnceColon]
    by_cases hc : c = ':'
    · subst hc
      simp
    · rw [if_neg hc]
      cases hrec : splitOnceColon rest with
      | none =>
        have hnotin : ':' ∉ rest := ih.mp hrec
        constructor
        · intro _ hmem
          rcases List.mem_cons.mp hmem with h | h
          · exact hc h.symm
          · exact hnotin h
        · intro _; rfl
      | some ab =>
        obtain ⟨a, b⟩ := ab
        have hmem : ':' ∈ rest := by
          by_contra hnot
          rw [ih.mpr hnot] at hrec
          cases hrec
        constructor
        · intro h; cases h
        · intro h
          exact absurd (List.mem_cons_of_mem _ hmem) h

/-- Every cue emitted by `parseLoop` gets its start time either from the
current `reading` mode or from a successfully parsed timing line of the
remaining input. -/
theorem parseLoop_start_provenance (ls : List Str) :
    ∀ m, ∀ c ∈ (parseLoop m ls).1,
      (∃ sp acc, m = ParseMode.reading sp c.start_time acc) ∨
        ∃ l ∈ ls, parse_timestamp (startTimestamp (strip l)) = some c.start_time := by
  induction ls with
  | nil =>
    intro m c hc
    cases m with
    | seeking => simp [parseLoop] at hc
    | reading sp t acc =>
      simp only [parseLoop, List.mem_singleton] at hc
      subst hc
      exact Or.inl ⟨sp, acc, rfl⟩
  | cons l rest ih =>
    intro m c hc
    cases m with
    | seeking =>
      rw [parseLoop] at hc
      by_cases h1 : strip l = [] ∨ (str "WEBVTT").isPrefixOf (strip l)
      · rw [if_pos h1] at hc
        rcases ih .seeking c hc with ⟨sp, acc, h⟩ | ⟨x, hx, h⟩
        · exact ParseMode.noConfusion h
        · exact Or.inr ⟨x, List.mem_cons_of_mem _ hx, h⟩
      · rw [if_neg h1] at hc
        by_cases h2 : isDigits (strip l) = true
        · rw [if_pos h2] at hc
          rcases ih .seeking c hc with ⟨sp, acc, h⟩ | ⟨x, hx, h⟩
          · exact ParseMode.noConfusion h
          · exact Or.inr ⟨x, List.mem_cons_of_mem _ hx, h⟩
        · rw [if_neg h2] at hc
          by_cases h3 : containsSub arrow (strip l) = true
          · rw [if_pos h3] at hc
            revert hc
            cases hts : parse_timestamp (startTimestamp (strip l)) with
            | some t0 =>
              intro hc
              rcases ih (.reading [] t0 []) c hc with ⟨sp, acc, h⟩ | ⟨x, hx, h⟩
              · injection h with h1 h2 h3
                exact Or.inr ⟨l, List.mem_cons_self _ _, h2 ▸ hts⟩
              · exact Or.inr ⟨x, List.mem_cons_of_mem _ hx, h⟩
            | none =>
              intro hc
              rcases ih .seeking c hc with ⟨sp, acc, h⟩ | ⟨x, hx, h⟩
              · exact ParseMode.noConfusion h
              · exact Or.inr ⟨x, List.mem_cons_of_mem _ hx, h⟩
          · rw [if_neg h3] at hc
            rcases ih .seeking c hc with ⟨sp, acc, h⟩ | ⟨x, hx, h⟩
            · exact ParseMode.noConfusion h
            · exact Or.inr ⟨x, List.mem_cons_of_mem _ hx, h⟩
    | reading sp t acc =>
      rw [parseLoop] at hc
      by_cases h1 : strip l = []
      · rw [if_pos h1] at hc
        rcases List.mem_cons.mp hc with rfl | hc
        · exact Or.inl ⟨sp, acc, rfl⟩
        · rcases ih .seeking c hc with ⟨sp', acc', h⟩ | ⟨x, hx, h⟩
          · exact ParseMode.noConfusion h
          · exact Or.inr ⟨x, List.mem_cons_of_mem _ hx, h⟩
      · rw [if_neg h1] at hc
        revert hc
        cases heq : splitOnceColon (strip l) with
        | some ab =>
          obtain ⟨a, b⟩ := ab
          intro hc
          rcases ih (.reading (strip a) t (fix_spelling (strip b) :: acc)) c hc with
            ⟨sp', acc', h⟩ | ⟨x, hx, h⟩
          · injection h with ha hb hc2
            exact Or.inl ⟨sp, acc, by rw [hb]⟩
          · exact Or.inr ⟨x, List.mem_cons_of_mem _ hx, h⟩
        | none =>
          intro hc
          rcases ih (.reading sp t (fix_spelling (strip l) :: acc)) c hc with
            ⟨sp', acc', h⟩ | ⟨x, hx, h⟩
          · injection h with ha hb hc2
            exact Or.inl ⟨sp, acc, by rw [hb]⟩
          · exact Or.inr ⟨x, List.mem_cons_of_mem _ hx, h⟩

/-- Every cue emitted by `parseLoop` gets its speaker either from the
current `reading` mode, or as the empty default, or verbatim (stripped, with
no spelling correction) from the part before the first colon of an input
line. -/
theorem parseLoop_speaker_provenance (ls : List Str) :
    ∀ m, ∀ c ∈ (parseLoop m ls).1,
      (∃ t acc, m = ParseMode.reading c.speaker t acc) ∨ c.speaker = [] ∨
        ∃ l ∈ ls, ∃ a b, splitOnceColon (strip l) = some (a, b) ∧ c.speaker = strip a := by
  induction ls with
  | nil =>
    intro m c hc
    cases m with
    | seeking => simp [parseLoop] at hc
    | reading sp t acc =>
      simp only [parseLoop, List.mem_singleton] at hc
      subst hc
      exact Or.inl ⟨t, acc, rfl⟩
  | cons l rest ih =>
    intro m c hc
    cases m with
    | seeking =>
      rw [parseLoop] at hc
      by_cases h1 : strip l = [] ∨ (str "WEBVTT").isPrefixOf (strip l)
      · rw [if_pos h1] at hc
        rcases ih .seeking c hc with ⟨t', acc, h⟩ | h | ⟨x, hx, h⟩
        · exact ParseMode.noConfusion h
        · exact Or.inr (Or.inl h)
        · exact Or.inr (Or.inr ⟨x, List.mem_cons_of_mem _ hx, h⟩)
      · rw [if_neg h1] at hc
        by_cases h2 : isDigits (strip l) = true
        · rw [if_pos h2] at hc
          rcases ih .seeking c hc with ⟨t', acc, h⟩ | h | ⟨x, hx, h⟩
          · exact ParseMode.noConfusion h
          · exact Or.inr (Or.inl h)
          · exact Or.inr (Or.inr ⟨x, List.mem_cons_of_mem _ hx, h⟩)
        · rw [if_neg h2] at hc
          by_cases h3 : containsSub arrow (strip l) = true
          · rw [if_pos h3] at hc
            revert hc
            cases hts : parse_timestamp (startTimestamp (strip l)) with
            | some t0 =>
              intro hc
              rcases ih (.reading [] t0 []) c hc with ⟨t', acc, h⟩ | h | ⟨x, hx, h⟩
              · injection h with ha hb hc2
                exact Or.inr (Or.inl ha.symm)
              · exact Or.inr (Or.inl h)
              · exact Or.inr (Or.inr ⟨x, List.mem_cons_of_mem _ hx, h⟩)
            | none =>
              intro hc
              rcases ih .seeking c hc with ⟨t', acc, h⟩ | h | ⟨x, hx, h⟩
              · exact ParseMode.noConfusion h
              · exact Or.inr (Or.inl h)
              · exact Or.inr (Or.inr ⟨x, List.mem_cons_of_mem _ hx, h⟩)
          · rw [if_neg h3] at hc
            rcases ih .seeking c hc with ⟨t', acc, h⟩ | h | ⟨x, hx, h⟩
            · exact ParseMode.noConfusion h
            · exact Or.inr (Or.inl h)
            · exact Or.inr (Or.inr ⟨x, List.mem_cons_of_mem _ hx, h⟩)
    | reading sp t acc =>
      rw [parseLoop] at hc
      by_cases h1 : strip l = []
      · rw [if_pos h1] at hc
        rcases List.mem_cons.mp hc with rfl | hc
        · exact Or.inl ⟨t, acc, rfl⟩
        · rcases ih .seeking c hc with ⟨t', acc', h⟩ | h | ⟨x, hx, h⟩
          · exact ParseMode.noConfusion h
          · exact Or.inr (Or.inl h)
          · exact Or.inr (Or.inr ⟨x, List.mem_cons_of_mem _ hx, h⟩)
      · rw [if_neg h1] at hc
        revert hc
        cases heq : splitOnceColon (strip l) with
        | some ab =>
          obtain ⟨a, b⟩ := ab
          intro hc
          rcases ih (.reading (strip a) t (fix_spelling (strip b) :: acc)) c hc with
            ⟨t', acc', h⟩ | h | ⟨x, hx, h⟩
          · injection h with ha hb hc2
            exact Or.inr (Or.inr ⟨l, List.mem_cons_self _ _, a, b, heq, ha.symm⟩)
          · exact Or.inr (Or.inl h)
          · exact Or.inr (Or.inr ⟨x, List.mem_cons_of_mem _ hx, h⟩)
        | none =>
          intro hc
          rcases ih (.reading sp t (fix_spelling (strip l) :: acc)) c hc with
            ⟨t', acc', h⟩ | h | ⟨x, hx, h⟩
          · injection h with ha hb hc2
            exact Or.inl ⟨t, acc, by rw [ha]⟩
          · exact Or.inr (Or.inl h)
          · exact Or.inr (Or.inr ⟨x, List.mem_cons_of_mem _ hx, h⟩)

/-- C9: the Cue Extractor is total — it terminates and returns a cue list
for every sequence of input lines (it is a total Lean function; all Python
`ValueError`s are caught at line 85, modelled by `Option`), and no cue is
ever emitted with a missing or malformed start time: every emitted cue's
start time comes from an input line whose left timestamp the Timestamp
Converter parsed successfully. -/
theorem c9_extractor_totality :
    ∀ (ls : List Str), ∀ c ∈ (parse_vtt_file ls).1,
      ∃ l ∈ ls, parse_timestamp (startTimestamp (strip l)) = some c.start_time := by
  intro ls c hc
  rcases parseLoop_start_provenance ls .seeking c hc with ⟨sp, acc, h⟩ | h
  · exact ParseMode.noConfusion h
  · exact h

/-- Witness for C9, instantiated at a concrete two-line file. -/
theorem c9_extractor_totality_witness :
    ∃ l ∈ [str "0 --> 1", str "x"],
      parse_timestamp (startTimestamp (strip l))
        = some (Cue.mk [] 0 (str "x")).start_time :=
  c9_extractor_totality [str "0 --> 1", str "x"] ⟨[], 0, str "x"⟩ (by decide)

/-- C10: Text Correction is applied to cue text only, never to the speaker
label.  Concretely, a cue line `"McCauley: saw Catherine"` keeps the speaker
`"McCauley"` verbatim (although a correction rule rewrites that substring)
while the text portion is corrected to `"saw Katharine"`; and in general
every emitted speaker is either empty or the verbatim stripped left part of
an input line's first-colon split, with `fix_spelling` never applied to
it. -/
theorem c10_speaker_not_corrected :
    ((parse_vtt_file [str "0 --> 1", str "McCauley: saw Catherine"]).1
      = [⟨str "McCauley", 0, str "saw Katharine"⟩]) ∧
    (∀ ls, ∀ c ∈ (parse_vtt_file ls).1,
        c.speaker = [] ∨
          ∃ l ∈ ls, ∃ a b, splitOnceColon (strip l) = some (a, b) ∧
            c.speaker = strip a) := by
  refine ⟨by decide, ?_⟩
  intro ls c hc
  rcases parseLoop_speaker_provenance ls .seeking c hc with ⟨t', acc, h⟩ | h | h
  · exact ParseMode.noConfusion h
  · exact Or.inl h
  · exact Or.inr h

/-- Witness for C10, instantiated at the concrete McCauley cue. -/
theorem c10_speaker_not_corrected_witness :
    (Cue.mk (str "McCauley") 0 (str "saw Katharine")).speaker = [] ∨
      ∃ l ∈ [str "0 --> 1", str "McCauley: saw Catherine"], ∃ a b,
        splitOnceColon (strip l) = some (a, b) ∧
          (Cue.mk (str "McCauley") 0 (str "saw Katharine")).speaker = strip a :=
  c10_speaker_not_corrected.2 [str "0 --> 1", str "McCauley: saw Catherine"]
    ⟨str "McCauley", 0, str "saw Katharine"⟩ (by decide)

/-- C2 counterexample: the claim that the *entire* cue is discarded on a
malformed timestamp is false.  In this input the second block's timing line
`"bad --> 2"` is malformed, but its following text line `"5 --> x"` is
re-scanned in seeking mode, re-interpreted as a timing line, and together
with `"world"` contributes a second cue — so the malformed cue's following
text lines do not all "contribute nothing", and more than one cue is
extracted. -/
theorem c2_counterexample :
    ((parse_vtt_file [str "0 --> 1", str "A: hello", str "", str "bad --> 2",
        str "5 --> x", str "world"]).1
      = [⟨str "A", 0, str "hello"⟩, ⟨[], 5, str "world"⟩]) ∧
    ((parse_vtt_file [str "0 --> 1", str "A: hello", str "", str "bad --> 2",
        str "5 --> x", str "world"]).2 = [str "bad"]) ∧
    ((parse_vtt_file [str "0 --> 1", str "A: hello", str "", str "bad --> 2",
        str "5 --> x", str "world"]).1 ≠ [⟨str "A", 0, str "hello"⟩]) := by
  refine ⟨by decide, by decide, by decide⟩

/-- C2 (amended): on a malformed timestamp a warning is recorded and only
the timing line is discarded — parsing resumes in SEEKING_CUE at the very
next line — so the cue's following text lines contribute nothing provided
none of them itself contains the `-->` separator with a parsable left
timestamp; in particular for a two-cue-block input whose text lines are free
of `-->`, with a malformed timing line in the second block, exactly one cue
(the first) is extracted and one warning recorded. -/
theorem c2_malformed_recovery_amended :
    (∀ l rest, ¬(strip l = [] ∨ (str "WEBVTT").isPrefixOf (strip l)) →
        isDigits (strip l) ≠ true → containsSub arrow (strip l) = true →
        parse_timestamp (startTimestamp (strip l)) = none →
        parseLoop .seeking (l :: rest)
          = ((parseLoop .seeking rest).1,
              startTimestamp (strip l) :: (parseLoop .seeking rest).2)) ∧
    ((parse_vtt_file [str "00:00:01.000 --> 00:00:02.000", str "A: hello", str "",
        str "notatime --> 2", str "B: world"]).1 = [⟨str "A", 1, str "hello"⟩]) ∧
    ((parse_vtt_file [str "00:00:01.000 --> 00:00:02.000", str "A: hello", str "",
        str "notatime --> 2", str "B: world"]).2 = [str "notatime"]) := by
  refine ⟨?_, by decide, by decide⟩
  intro l rest h1 h2 h3 hts
  rw [parseLoop, if_neg h1, if_neg h2, if_pos h3, hts]

/-- Witness for C2's amended theorem, instantiated at the malformed timing
line `"bad --> 2"`. -/
theorem c2_malformed_recovery_amended_witness :
    parseLoop .seeking [str "bad --> 2"]
      = ((parseLoop .seeking ([] : List Str)).1,
          startTimestamp (strip (str "bad --> 2"))
            :: (parseLoop .seeking ([] : List Str)).2) :=
  c2_malformed_recovery_amended.1 (str "bad --> 2") [] (by decide) (by decide)
    (by decide) (by decide)

/-- C3 counterexample: the claim requires the speaker update only when the
first-colon split yields two *non-empty* parts, but the code checks only
that a colon is present.  On the text line `": there"` the left part is
empty, yet the code still overwrites the speaker (with the empty string) and
appends only the right part — the claim instead predicts the cue
`("A", 0, "hi : there")` with the speaker untouched and the whole line
appended. -/
theorem c3_counterexample :
    ((parse_vtt_file [str "0 --> 1", str "A: hi", str ": there"]).1
      = [⟨[], 0, str "hi there"⟩]) ∧
    ((parse_vtt_file [str "0 --> 1", str "A: hi", str ": there"]).1
      ≠ [⟨str "A", 0, str "hi : there"⟩]) := by
  refine ⟨by decide, by decide⟩

/-- C3 (amended): each text line is split on the first `:`; whenever the
line contains a colon at all (the split yields exactly two parts, either of
which may be empty — non-emptiness is not checked), the stripped left part
overwrites the cue's speaker (last writer wins, even when empty) and the
stripped, spelling-corrected right part is appended as a text line; only
lines containing no colon are appended whole (after Text Correction) with no
speaker update. -/
theorem c3_speaker_split_amended :
    (∀ (l sp : Str) (t : ℚ) (acc : List Str) (rest : List Str) (a b : Str),
        strip l ≠ [] → strip l = a ++ ':' :: b → ':' ∉ a →
          parseLoop (.reading sp t acc) (l :: rest)
            = parseLoop (.reading (strip a) t (fix_spelling (strip b) :: acc)) rest) ∧
    (∀ (l sp : Str) (t : ℚ) (acc : List Str) (rest : List Str),
        strip l ≠ [] → ':' ∉ strip l →
          parseLoop (.reading sp t acc) (l :: rest)
            = parseLoop (.reading sp t (fix_spelling (strip l) :: acc)) rest) := by
  constructor
  · intro l sp t acc rest a b h1 heq hnotin
    have hs : splitOnceColon (strip l) = some (a, b) :=
      (splitOnceColon_some (strip l) a b).mpr ⟨heq, hnotin⟩
    rw [parseLoop, if_neg h1, hs]
  · intro l sp t acc rest h1 hnotin
    have hs : splitOnceColon (strip l) = none :=
      (splitOnceColon_none (strip l)).mpr hnotin
    rw [parseLoop, if_neg h1, hs]

/-- Witness for C3's amended theorem, instantiated at the empty-left-part
line `": there"`. -/
theorem c3_speaker_split_amended_witness :
    parseLoop (.reading (str "A") 0 [str "hi"]) [str ": there"]
      = parseLoop (.reading (strip ([] : Str)) 0
          (fix_spelling (strip (str " there")) :: [str "hi"])) [] :=
  c3_speaker_split_amended.1 (str ": there") (str "A") 0 [str "hi"] [] []
    (str " there") (by decide) (by decide) (by decide)

/-- C6 counterexample: nothing sorts the extracted cues, so an input whose
timing lines are out of order yields a cue sequence that is *not* in
non-decreasing `start_time` order. -/
theorem c6_counterexample :
    ((parse_vtt_file [str "20 --> 21", str "x", str "", str "10 --> 11",
        str "y"]).1.map Cue.start_time = [20, 10]) ∧
    ¬ List.Chain' (fun a b : ℚ => a ≤ b)
        ((parse_vtt_file [str "20 --> 21", str "x", str "", str "10 --> 11",
            str "y"]).1.map Cue.start_time) := by
  have hmap : (parse_vtt_file [str "20 --> 21", str "x", str "", str "10 --> 11",
      str "y"]).1.map Cue.start_time = [20, 10] := by decide
  refine ⟨hmap, ?_⟩
  rw [hmap]
  simp only [List.chain'_cons, List.chain'_singleton, and_true]
  norm_num

/-- `parseLoop` is compositional over a blank separator line: the cues and
warnings of the two sides concatenate in order.  (A blank line always
terminates any cue in progress and is then skipped.) -/
theorem parseLoop_append_blank (ls2 ls1 : List Str) :
    ∀ m, parseLoop m (ls1 ++ str "" :: ls2)
      = ((parseLoop m ls1).1 ++ (parseLoop .seeking ls2).1,
          (parseLoop m ls1).2 ++ (parseLoop .seeking ls2).2) := by
  induction ls1 with
  | nil =>
    intro m
    cases m with
    | seeking =>
      have h : parseLoop .seeking (str "" :: ls2) = parseLoop .seeking ls2 := by
        rw [parseLoop, if_pos (Or.inl (by decide))]
      rw [List.nil_append, h]
      simp [parseLoop]
    | reading sp t acc =>
      have h : parseLoop (.reading sp t acc) (str "" :: ls2)
          = (⟨sp, t, joinSpace acc.reverse⟩ :: (parseLoop .seeking ls2).1,
              (parseLoop .seeking ls2).2) := by
        rw [parseLoop, if_pos (by decide : strip (str "") = [])]
      rw [List.nil_append, h]
      simp [parseLoop]
  | cons l ls1 ih =>
    intro m
    rw [List.cons_append]
    cases m with
    | seeking =>
      by_cases h1 : strip l = [] ∨ (str "WEBVTT").isPrefixOf (strip l)
      · have hL : parseLoop .seeking (l :: (ls1 ++ str "" :: ls2))
            = parseLoop .seeking (ls1 ++ str "" :: ls2) := by
          rw [parseLoop, if_pos h1]
        have hR : parseLoop .seeking (l :: ls1) = parseLoop .seeking ls1 := by
          rw [parseLoop, if_pos h1]
        rw [hL, hR, ih .seeking]
      · by_cases h2 : isDigits (strip l) = true
        · have hL : parseLoop .seeking (l :: (ls1 ++ str "" :: ls2))
              = parseLoop .seeking (ls1 ++ str "" :: ls2) := by
            rw [parseLoop, if_neg h1, if_pos h2]
          have hR : parseLoop .seeking (l :: ls1) = parseLoop .seeking ls1 := by
            rw [parseLoop, if_neg h1, if_pos h2]
          rw [hL, hR, ih .seeking]
        · by_cases h3 : containsSub arrow (strip l) = true
          · cases hts : parse_timestamp (startTimestamp (strip l)) with
            | some t0 =>
              have hL : parseLoop .seeking (l :: (ls1 ++ str "" :: ls2))
                  = parseLoop (.reading [] t0 []) (ls1 ++ str "" :: ls2) := by
                rw [parseLoop, if_neg h1, if_neg h2, if_pos h3, hts]
              have hR : parseLoop .seeking (l :: ls1)
                  = parseLoop (.reading [] t0 []) ls1 := by
                rw [parseLoop, if_neg h1, if_neg h2, if_pos h3, hts]
              rw [hL, hR, ih (.reading [] t0 [])]
            | none =>
              have hL : parseLoop .seeking (l :: (ls1 ++ str "" :: ls2))
                  = ((parseLoop .seeking (ls1 ++ str "" :: ls2)).1,
                      startTimestamp (strip l)
                        :: (parseLoop .seeking (ls1 ++ str "" :: ls2)).2) := by
                rw [parseLoop, if_neg h1, if_neg h2, if_pos h3, hts]
              have hR : parseLoop .seeking (l :: ls1)
                  = ((parseLoop .seeking ls1).1,
                      startTimestamp (strip l) :: (parseLoop .seeking ls1).2) := by
                rw [parseLoop, if_neg h1, if_neg h2, if_pos h3, hts]
              rw [hL, hR, ih .seeking]
              simp
          · have hL : parseLoop .seeking (l :: (ls1 ++ str "" :: ls2))
                = parseLoop .seeking (ls1 ++ str "" :: ls2) := by
              rw [parseLoop, if_neg h1, if_neg h2, if_neg h3]
            have hR : parseLoop .seeking (l :: ls1) = parseLoop .seeking ls1 := by
              rw [parseLoop, if_neg h1, if_neg h2, if_neg h3]
            rw [hL, hR, ih .seeking]
    | reading sp t acc =>
      by_cases h1 : strip l = []
      · have hL : parseLoop (.reading sp t acc) (l :: (ls1 ++ str "" :: ls2))
            = (⟨sp, t, joinSpace acc.reverse⟩
                  :: (parseLoop .seeking (ls1 ++ str "" :: ls2)).1,
                (parseLoop .seeking (ls1 ++ str "" :: ls2)).2) := by
          rw [parseLoop, if_pos h1]
        have hR : parseLoop (.reading sp t acc) (l :: ls1)
            = (⟨sp, t, joinSpace acc.reverse⟩ :: (parseLoop .seeking ls1).1,
                (parseLoop .seeking ls1).2) := by
          rw [parseLoop, if_pos h1]
        rw [hL, hR, ih .seeking]
        simp
      · cases heq : splitOnceColon (strip l) with
        | some ab =>
          obtain ⟨a, b⟩ := ab
          have hL : parseLoop (.reading sp t acc) (l :: (ls1 ++ str "" :: ls2))
              = parseLoop (.reading (strip a) t (fix_spelling (strip b) :: acc))
                  (ls1 ++ str "" :: ls2) := by
            rw [parseLoop, if_neg h1, heq]
          have hR : parseLoop (.reading sp t acc) (l :: ls1)
              = parseLoop (.reading (strip a) t (fix_spelling (strip b) :: acc)) ls1 := by
            rw [parseLoop, if_neg h1, heq]
          rw [hL, hR, ih (.reading (strip a) t (fix_spelling (strip b) :: acc))]
        | none =>
          have hL : parseLoop (.reading sp t acc) (l :: (ls1 ++ str "" :: ls2))
              = parseLoop (.reading sp t (fix_spelling (strip l) :: acc))
                  (ls1 ++ str "" :: ls2) := by
            rw [parseLoop, if_neg h1, heq]
          have hR : parseLoop (.reading sp t acc) (l :: ls1)
              = parseLoop (.reading sp t (fix_spelling (strip l) :: acc)) ls1 := by
            rw [parseLoop, if_neg h1, heq]
          rw [hL, hR, ih (.reading sp t (fix_spelling (strip l) :: acc))]

/-- C6 (amended): the Cue Extractor preserves file appearance order — it is
compositional over blank-separated segments, with cues and warnings
concatenating in segment order, and equal start times staying in stable file
order — but the output is in non-decreasing `start_time` order only when the
input file's successfully parsed timing values are themselves non-decreasing
(as in a well-formed transcript); nothing sorts, so out-of-order inputs
yield out-of-order cue sequences. -/
theorem c6_order_amended :
    (∀ ls1 ls2, parse_vtt_file (ls1 ++ str "" :: ls2)
        = ((parse_vtt_file ls1).1 ++ (parse_vtt_file ls2).1,
            (parse_vtt_file ls1).2 ++ (parse_vtt_file ls2).2)) ∧
    ((parse_vtt_file [str "0 --> 1", str "A: x", str "", str "0 --> 2",
        str "B: y", str "", str "10 --> 11", str "C: z"]).1.map Cue.start_time
      = [0, 0, 10]) ∧
    ((parse_vtt_file [str "0 --> 1", str "A: x", str "", str "0 --> 2",
        str "B: y", str "", str "10 --> 11", str "C: z"]).1.map Cue.speaker
      = [str "A", str "B", str "C"]) ∧
    List.Chain' (fun a b : ℚ => a ≤ b)
      ((parse_vtt_file [str "0 --> 1", str "A: x", str "", str "0 --> 2",
          str "B: y", str "", str "10 --> 11", str "C: z"]).1.map Cue.start_time) := by
  have hmap : (parse_vtt_file [str "0 --> 1", str "A: x", str "", str "0 --> 2",
      str "B: y", str "", str "10 --> 11", str "C: z"]).1.map Cue.start_time
      = [0, 0, 10] := by decide
  refine ⟨?_, hmap, by decide, ?_⟩
  · intro ls1 ls2
    exact parseLoop_append_blank ls2 ls1 .seeking
  · rw [hmap]
    simp only [List.chain'_cons, List.chain'_singleton, and_true]
    norm_num

/-- Witness for C5, instantiated at a concrete one-cue list. -/
theorem c5_speaker_run_grouping_witness :
    ∃ c cs, (Run.mk (str "A") 0 [⟨str "A", 0, str "x"⟩]).cues = c :: cs ∧
      (Run.mk (str "A") 0 [⟨str "A", 0, str "x"⟩]).speaker = c.speaker ∧
      (Run.mk (str "A") 0 [⟨str "A", 0, str "x"⟩]).anchor = c.start_time ∧
      ∀ d ∈ (Run.mk (str "A") 0 [⟨str "A", 0, str "x"⟩]).cues,
        d.speaker = (Run.mk (str "A") 0 [⟨str "A", 0, str "x"⟩]).speaker :=
  c5_speaker_run_grouping.2.1 [⟨str "A", 0, str "x"⟩]
    ⟨str "A", 0, [⟨str "A", 0, str "x"⟩]⟩ (by decide)
